import Mathlib

/-!
Verification development for the amaro-vscode front end.

The repository ships a VS Code client (`src/extension.ts`) and documents a
Rust language-server core (`amaro-lsp`: lexer, parser, AST, type system,
semantic analyzer) whose sources are not included here.  The client is
embedded directly from `src/extension.ts`; the core is modelled from the
specification, as marked on each definition.
-/

namespace Amaro

/-- Modelled from the spec: the closed Type union of §3 (Int, Float, Bool,
String, Location, Qubit, Gate, Arch, State, Option, Vec, Tuple, Function,
Struct, Unknown), plus the Qubit-indexed container type (`QubitMap`, the
return type of `State.map` in §8's scenario and the changelog).  The
element list of a `Tuple`, the parameter list of a `Function` and the
field list of a `Struct` are encoded as cons-chains inside `Ty`
(`tupleNil`/`tupleCons`, `fieldNil`/`fieldCons`) so that the union stays a
single inductive type. -/
inductive Ty : Type
| int : Ty
| float : Ty
| bool : Ty
| string : Ty
| location : Ty
| qubit : Ty
| gate : Ty
| arch : Ty
| stateT : Ty
| qubitMap : Ty
| option (t : Ty) : Ty
| vec (t : Ty) : Ty
| tupleNil : Ty
| tupleCons (t : Ty) (rest : Ty) : Ty
| tuple (elems : Ty) : Ty
| fnT (params : Ty) (ret : Ty) : Ty
| fieldNil : Ty
| fieldCons (fname : String) (t : Ty) (rest : Ty) : Ty
| struct (sname : String) (fields : Ty) : Ty
| unknown : Ty
deriving DecidableEq

/-- Modelled from the spec: the type-compatibility relation of §4.4.
`Unknown` is compatible with every type in both directions; containers
(`Vec`, `Option`, `Tuple`) compare structurally and recursively (tuples
element-wise through the encoded element chain); named domain types
compare nominally; `Struct` compares by name and field-set compatibility;
function types compare by parameter list and return type. -/
def compatible : Ty → Ty → Bool
| .unknown, _ => true
| .int, b => match b with | .int => true | .unknown => true | _ => false
| .float, b => match b with | .float => true | .unknown => true | _ => false
| .bool, b => match b with | .bool => true | .unknown => true | _ => false
| .string, b => match b with | .string => true | .unknown => true | _ => false
| .location, b => match b with | .location => true | .unknown => true | _ => false
| .qubit, b => match b with | .qubit => true | .unknown => true | _ => false
| .gate, b => match b with | .gate => true | .unknown => true | _ => false
| .arch, b => match b with | .arch => true | .unknown => true | _ => false
| .stateT, b => match b with | .stateT => true | .unknown => true | _ => false
| .qubitMap, b => match b with | .qubitMap => true | .unknown => true | _ => false
| .option a, b =>
    match b with | .option c => compatible a c | .unknown => true | _ => false
| .vec a, b =>
    match b with | .vec c => compatible a c | .unknown => true | _ => false
| .tupleNil, b => match b with | .tupleNil => true | .unknown => true | _ => false
| .tupleCons a as, b =>
    match b with
    | .tupleCons c cs => compatible a c && compatible as cs
    | .unknown => true
    | _ => false
| .tuple a, b =>
    match b with | .tuple c => compatible a c | .unknown => true | _ => false
| .fnT ps r, b =>
    match b with
    | .fnT qs s => compatible ps qs && compatible r s
    | .unknown => true
    | _ => false
| .fieldNil, b => match b with | .fieldNil => true | .unknown => true | _ => false
| .fieldCons n a as, b =>
    match b with
    | .fieldCons m c cs => n == m && compatible a c && compatible as cs
    | .unknown => true
    | _ => false
| .struct n fs, b =>
    match b with
    | .struct m gs => n == m && compatible fs gs
    | .unknown => true
    | _ => false

/-- Modelled from the spec: printable name of a type, used by diagnostics
that name the types involved (for example the index-mismatch message
`Expected 'Qubit' but got 'Int'` of the changelog). -/
def tyName : Ty → String
| .int => "Int"
| .float => "Float"
| .bool => "Bool"
| .string => "String"
| .location => "Location"
| .qubit => "Qubit"
| .gate => "Gate"
| .arch => "Arch"
| .stateT => "State"
| .qubitMap => "QubitMap"
| .option t => "Option<" ++ tyName t ++ ">"
| .vec t => "Vec<" ++ tyName t ++ ">"
| .tupleNil => ""
| .tupleCons t rest => tyName t ++ "," ++ tyName rest
| .tuple ts => "(" ++ tyName ts ++ ")"
| .fnT ps r => "Fn(" ++ tyName ps ++ ")->" ++ tyName r
| .fieldNil => ""
| .fieldCons n t rest => n ++ ":" ++ tyName t ++ "," ++ tyName rest
| .struct n _ => n
| .unknown => "Unknown"

def isIntTy : Ty → Bool
| .int => true
| _ => false

def isQubitTy : Ty → Bool
| .qubit => true
| _ => false

/-- Modelled from the spec: index-type compatibility (§4.4), a relation of
its own, not plain `compatible`: the container's declared index type must
match the probe type, with the explicit exception that `Qubit` and `Int`
are mutually accepted as index types. -/
def indexCompatible (declared probe : Ty) : Bool :=
  compatible declared probe ||
    (isIntTy declared && isQubitTy probe) ||
    (isQubitTy declared && isIntTy probe)

/-- Modelled from the spec: the declared index type and element type of a
container (§4.5 indexing resolves the base's declared index type): a
`Vec T` is indexed by `Int` with elements `T`; the `QubitMap` container is
indexed by `Qubit` (its elements modelled as `Location`). -/
def indexTypeOf : Ty → Option (Ty × Ty)
| .vec t => some (.int, t)
| .qubitMap => some (.qubit, .location)
| _ => none

/-- Modelled from the spec: severity of a diagnostic (§3). -/
inductive Sev : Type
| error : Sev
| warning : Sev
deriving DecidableEq

/-- Modelled from the spec: the stable diagnostic codes of §7, plus the
parser's recoverable-syntax-error and recursion-limit diagnostics. -/
inductive DCode : Type
| parseErr : DCode
| recursionLimit : DCode
| missingBlock (b : String) : DCode
| missingField (b f : String) : DCode
| typeMismatch (t1 t2 : String) : DCode
| indexTypeMismatch (expected actual : String) : DCode
| unknownIdent (s : String) : DCode
| styleCap (b : String) : DCode
| projMismatch (t : String) : DCode
| notIndexable (t : String) : DCode
deriving DecidableEq

/-- Modelled from the spec: a diagnostic (§3): severity, rule code and the
source anchor (a single offset standing for the range). -/
structure Diag : Type where
  sev : Sev
  code : DCode
  pos : Nat
deriving DecidableEq

/-- Modelled from the spec: the index-compatibility check the analyzer
applies to `base[index]` once the base's declared index type is resolved:
a mismatch produces one `IndexTypeMismatch` error naming the expected and
the actual type (§4.5, §8). -/
def checkIndexProbe (declared probe : Ty) : List Diag :=
  if indexCompatible declared probe then []
  else [⟨.error, .indexTypeMismatch (tyName declared) (tyName probe), 0⟩]

/-- Modelled from the spec: the token stream of §4.1.  Block headers carry
the source position of the header (the anchor for block-level
diagnostics); foreign spans are one opaque token produced by
balanced-brace scanning; invalid characters arrive as a `bad` token. -/
inductive Tok : Type
| blockHead (bname : String) (pos : Nat) : Tok
| ident (s : String) : Tok
| num (n : Int) : Tok
| eq : Tok
| lparen : Tok
| rparen : Tok
| lbrack : Tok
| rbrack : Tok
| dot : Tok
| plus : Tok
| kwIf : Tok
| kwThen : Tok
| kwElse : Tok
| kwLet : Tok
| kwIn : Tok
| foreign (s : String) : Tok
| bad : Tok
deriving DecidableEq

/-- Modelled from the spec: the expression AST of §3.  Every node carries
a NodeId.  One representative binary operator stands for the operator
tiers (the spec's §9 leaves the full operator table open); tuple indexing,
dynamic projection, field access, indexing, `if`/`then`/`else` and
`let ... in` are the postfix and structured forms of §4.2. -/
inductive Expr : Type
| lit (id : Nat) (n : Int) : Expr
| var (id : Nat) (s : String) : Expr
| bin (id : Nat) (l r : Expr) : Expr
| index (id : Nat) (base idx : Expr) : Expr
| tupleIdx (id : Nat) (base : Expr) (n : Nat) : Expr
| dynProj (id : Nat) (base path : Expr) : Expr
| fieldAcc (id : Nat) (base : Expr) (f : String) : Expr
| ite (id : Nat) (cond thn els : Expr) : Expr
| letE (id : Nat) (x : String) (v body : Expr) : Expr
| err (id : Nat) : Expr
deriving DecidableEq

/-- Erase NodeIds (replace every id by 0), the quotient under which parses
of the same text are compared (§8 idempotence "modulo NodeIds"). -/
def Expr.erase : Expr → Expr
| .lit _ n => .lit 0 n
| .var _ s => .var 0 s
| .bin _ l r => .bin 0 l.erase r.erase
| .index _ b i => .index 0 b.erase i.erase
| .tupleIdx _ b n => .tupleIdx 0 b.erase n
| .dynProj _ b p => .dynProj 0 b.erase p.erase
| .fieldAcc _ b f => .fieldAcc 0 b.erase f
| .ite _ c t e => .ite 0 c.erase t.erase e.erase
| .letE _ x v b => .letE 0 x v.erase b.erase
| .err _ => .err 0

/-- Modelled from the spec: a named field of a block (§3). -/
structure Field : Type where
  id : Nat
  name : String
  value : Expr
deriving DecidableEq

/-- Modelled from the spec: a top-level block (§3): name, header position
(the anchor for `MissingField` diagnostics) and fields.  Struct
definitions inside blocks play no role in the properties below and are
not modelled. -/
structure Block : Type where
  id : Nat
  name : String
  pos : Nat
  fields : List Field
deriving DecidableEq

/-- Modelled from the spec: a top-level item of a file: a block or an
opaque foreign-code span (§4.3). -/
inductive Item : Type
| blockI (b : Block) : Item
| foreignI (id : Nat) (s : String) : Item
deriving DecidableEq

def Field.erase (f : Field) : Field := ⟨0, f.name, f.value.erase⟩

def Block.erase (b : Block) : Block := ⟨0, b.name, b.pos, b.fields.map Field.erase⟩

def Item.erase : Item → Item
| .blockI b => .blockI b.erase
| .foreignI _ s => .foreignI 0 s

/-- Result of one expression-parser call: parsed expression, diagnostics,
remaining tokens, and the NodeId counter after the call. -/
structure PRes : Type where
  e : Expr
  ds : List Diag
  rest : List Tok
  c : Nat
deriving DecidableEq

/-- The diagnostic recorded when the expression parser's recursion-depth
limit is exceeded (§4.2: a dedicated diagnostic instead of unbounded
stack growth). -/
def depthDiag : Diag := ⟨.error, .recursionLimit, 0⟩

/-- The diagnostic recorded for a recoverable syntax error (§4.3). -/
def synDiag : Diag := ⟨.error, .parseErr, 0⟩

mutual

/-- Modelled from the spec: the precedence-climbing expression parser of
§4.2, depth-bounded by its first argument: when the bound is exhausted it
returns an error placeholder together with the dedicated recursion-limit
diagnostic.  An expression is a chain of binary operations over postfix
expressions. -/
def parseExpr : Nat → List Tok → Nat → PRes
| 0, ts, c => ⟨.err c, [depthDiag], ts, c + 1⟩
| d + 1, ts, c =>
    let r := parsePost d ts c
    parseSum d r.e r.ds r.rest r.c

/-- Modelled from the spec: the left-associative binary-operator chain of
§4.2 (one representative additive operator). -/
def parseSum : Nat → Expr → List Diag → List Tok → Nat → PRes
| 0, acc, ds, ts, c => ⟨acc, ds ++ [depthDiag], ts, c⟩
| d + 1, acc, ds, ts, c =>
    match ts with
    | .plus :: rest =>
        let r := parsePost d rest c
        parseSum d (.bin r.c acc r.e) (ds ++ r.ds) r.rest (r.c + 1)
    | _ => ⟨acc, ds, ts, c⟩

/-- Modelled from the spec: a postfix expression: a primary expression
followed by a left-associative postfix chain (§4.2). -/
def parsePost : Nat → List Tok → Nat → PRes
| 0, ts, c => ⟨.err c, [depthDiag], ts, c + 1⟩
| d + 1, ts, c =>
    let r := parsePrimary d ts c
    parsePostOps d r.e r.ds r.rest r.c

/-- Modelled from the spec: the postfix chain of §4.2, disambiguated by
one token of lookahead after a dot: an integer literal is a tuple index, a
parenthesized expression is a dynamic projection, an identifier is field
access; `[expr]` is indexing.  A missing closing bracket is a recoverable
syntax error. -/
def parsePostOps : Nat → Expr → List Diag → List Tok → Nat → PRes
| 0, acc, ds, ts, c => ⟨acc, ds ++ [depthDiag], ts, c⟩
| d + 1, acc, ds, ts, c =>
    match ts with
    | .lbrack :: rest =>
        let r := parseExpr d rest c
        match r.rest with
        | .rbrack :: rest2 =>
            parsePostOps d (.index r.c acc r.e) (ds ++ r.ds) rest2 (r.c + 1)
        | _ =>
            parsePostOps d (.index r.c acc r.e) (ds ++ r.ds ++ [synDiag]) r.rest (r.c + 1)
    | .dot :: .num n :: rest =>
        parsePostOps d (.tupleIdx c acc n.toNat) ds rest (c + 1)
    | .dot :: .lparen :: rest =>
        let r := parseExpr d rest c
        match r.rest with
        | .rparen :: rest2 =>
            parsePostOps d (.dynProj r.c acc r.e) (ds ++ r.ds) rest2 (r.c + 1)
        | _ =>
            parsePostOps d (.dynProj r.c acc r.e) (ds ++ r.ds ++ [synDiag]) r.rest (r.c + 1)
    | .dot :: .ident f :: rest =>
        parsePostOps d (.fieldAcc c acc f) ds rest (c + 1)
    | .dot :: rest => parsePostOps d acc (ds ++ [synDiag]) rest c
    | _ => ⟨acc, ds, ts, c⟩

/-- Modelled from the spec: primary expressions (§4.2): literals,
identifiers, parenthesized expressions, `if`/`then`/`else` (each branch a
full expression) and chained `let ... in`.  A token that cannot start an
expression yields an error placeholder and a recoverable syntax
diagnostic without consuming the token, so the enclosing parser can
resynchronize. -/
def parsePrimary : Nat → List Tok → Nat → PRes
| 0, ts, c => ⟨.err c, [depthDiag], ts, c + 1⟩
| d + 1, ts, c =>
    match ts with
    | .num n :: rest => ⟨.lit c n, [], rest, c + 1⟩
    | .ident s :: rest => ⟨.var c s, [], rest, c + 1⟩
    | .lparen :: rest =>
        let r := parseExpr d rest c
        match r.rest with
        | .rparen :: rest2 => ⟨r.e, r.ds, rest2, r.c⟩
        | _ => ⟨r.e, r.ds ++ [synDiag], r.rest, r.c⟩
    | .kwIf :: rest =>
        let rc := parseExpr d rest c
        match rc.rest with
        | .kwThen :: r1 =>
            let rt := parseExpr d r1 rc.c
            match rt.rest with
            | .kwElse :: r2 =>
                let re := parseExpr d r2 rt.c
                ⟨.ite re.c rc.e rt.e re.e, rc.ds ++ rt.ds ++ re.ds, re.rest, re.c + 1⟩
            | _ =>
                ⟨.ite rt.c rc.e rt.e (.err (rt.c + 1)),
                  rc.ds ++ rt.ds ++ [synDiag], rt.rest, rt.c + 2⟩
        | _ => ⟨.err rc.c, rc.ds ++ [synDiag], rc.rest, rc.c + 1⟩
    | .kwLet :: .ident x :: .eq :: rest =>
        let rv := parseExpr d rest c
        match rv.rest with
        | .kwIn :: r1 =>
            let rb := parseExpr d r1 rv.c
            ⟨.letE rb.c x rv.e rb.e, rv.ds ++ rb.ds, rb.rest, rb.c + 1⟩
        | _ => ⟨.err rv.c, rv.ds ++ [synDiag], rv.rest, rv.c + 1⟩
    | _ => ⟨.err c, [synDiag], ts, c + 1⟩

end

/-- Modelled from the spec: the fixed recursion-depth limit applied to
every field-value expression parse. -/
def exprDepth : Nat := 64

/-- Modelled from the spec: the field list of a block (§4.3): `name =
expr` entries; parsing stops at the next block header (the
resynchronization point) and records a recoverable diagnostic for any
token that fits neither, continuing with the rest of the list. -/
def parseFields : Nat → List Tok → Nat → List Field × List Diag × List Tok × Nat
| 0, ts, c => ([], [], ts, c)
| fu + 1, ts, c =>
    match ts with
    | .ident fname :: .eq :: rest =>
        let r := parseExpr exprDepth rest c
        let rec2 := parseFields fu r.rest (r.c + 1)
        (⟨r.c, fname, r.e⟩ :: rec2.1, r.ds ++ rec2.2.1, rec2.2.2.1, rec2.2.2.2)
    | .blockHead _ _ :: _ => ([], [], ts, c)
    | [] => ([], [], [], c)
    | _ :: rest =>
        let rec2 := parseFields fu rest c
        (rec2.1, synDiag :: rec2.2.1, rec2.2.2.1, rec2.2.2.2)

/-- Result of the whole-file parse: top-level items, diagnostics, and the
NodeId counter after the parse. -/
structure PFile : Type where
  items : List Item
  ds : List Diag
  c : Nat
deriving DecidableEq

/-- Modelled from the spec: the whole-file block parser with error
recovery (§4.3): a block header opens a block whose fields are parsed up
to the next header; a foreign span becomes an opaque item; any other
token is a recoverable syntax error — one diagnostic is recorded, the
token is skipped, and parsing of the remainder of the file continues. -/
def parseFileGo : Nat → List Tok → Nat → PFile
| 0, ts, c => ⟨[], if ts.isEmpty then [] else [synDiag], c⟩
| _ + 1, [], c => ⟨[], [], c⟩
| fu + 1, .blockHead bname pos :: rest, c =>
    let f := parseFields fu rest c
    let r := parseFileGo fu f.2.2.1 (f.2.2.2 + 1)
    ⟨.blockI ⟨f.2.2.2, bname, pos, f.1⟩ :: r.items, f.2.1 ++ r.ds, r.c⟩
| fu + 1, .foreign s :: rest, c =>
    let r := parseFileGo fu rest (c + 1)
    ⟨.foreignI c s :: r.items, r.ds, r.c⟩
| fu + 1, _ :: rest, c =>
    let r := parseFileGo fu rest c
    ⟨r.items, synDiag :: r.ds, r.c⟩

/-- Modelled from the spec: the whole-file parse of one document snapshot,
fueled by the token count so that every token is processed. -/
def parseFile (ts : List Tok) (c : Nat) : PFile :=
  parseFileGo (ts.length + 1) ts c

/-- Modelled from the spec: a scope is an ordered name-to-type mapping;
lookup searches innermost-to-outermost (§3). -/
abbrev Scope := List (String × Ty)

def lookupVar : Scope → String → Option Ty
| [], _ => none
| (n, t) :: rest, s => if n = s then some t else lookupVar rest s

/-- Modelled from the spec: operand admissibility for the numeric operator
tier (§4.5): numeric operands are required, and an `Unknown` operand is
accepted by the leniency rule. -/
def numericTy : Ty → Bool
| .int => true
| .float => true
| .unknown => true
| _ => false

/-- Modelled from the spec: the unified type of two compatible branches
(§4.5): the known branch type wins over `Unknown`. -/
def joinTy : Ty → Ty → Ty
| .unknown, b => b
| a, _ => a

/-- Modelled from the spec: the base types on which a dynamic-projection
path can resolve (§4.5: a known struct or domain type has a field/method
schema; the schema itself is unspecified, so resolution on those types is
modelled as succeeding with result `Unknown`). -/
def projResolves : Ty → Bool
| .struct _ _ => true
| .gate => true
| .arch => true
| .stateT => true
| .qubitMap => true
| _ => false

/-- Modelled from the spec: look a field name up in an encoded struct
field chain. -/
def fieldTy : Ty → String → Option Ty
| .fieldCons n t rest, f => if n = f then some t else fieldTy rest f
| _, _ => none

/-- Modelled from the spec: the n-th element type of an encoded tuple
element chain. -/
def tupleNth : Ty → Nat → Option Ty
| .tupleCons t _, 0 => some t
| .tupleCons _ rest, n + 1 => tupleNth rest n
| _, _ => none

/-- Modelled from the spec: bottom-up type inference over one field's
expression tree (§4.5).  Diagnostics of subexpressions are always carried
into the enclosing expression's list; an operation applied to an
expression of type `Unknown` adds no diagnostic of its own (the leniency
rule of §7). -/
def inferExpr (sc : Scope) : Expr → Ty × List Diag
| .lit _ _ => (.int, [])
| .var _ s =>
    match lookupVar sc s with
    | some t => (t, [])
    | none => (.unknown, [⟨.error, .unknownIdent s, 0⟩])
| .bin _ l r =>
    let tl := inferExpr sc l
    let tr := inferExpr sc r
    (joinTy tl.1 tr.1,
      tl.2 ++ tr.2 ++
        (if numericTy tl.1 && numericTy tr.1 then []
         else [⟨.error, .typeMismatch (tyName tl.1) (tyName tr.1), 0⟩]))
| .index _ b i =>
    let tb := inferExpr sc b
    let ti := inferExpr sc i
    match tb.1 with
    | .unknown => (.unknown, tb.2 ++ ti.2)
    | bt =>
        match indexTypeOf bt with
        | some (decl, elem) => (elem, tb.2 ++ ti.2 ++ checkIndexProbe decl ti.1)
        | none => (.unknown, tb.2 ++ ti.2 ++ [⟨.error, .notIndexable (tyName bt), 0⟩])
| .tupleIdx _ b n =>
    let tb := inferExpr sc b
    match tb.1 with
    | .unknown => (.unknown, tb.2)
    | .tuple ts =>
        match tupleNth ts n with
        | some t => (t, tb.2)
        | none => (.unknown, tb.2 ++ [⟨.error, .typeMismatch (tyName (.tuple ts)) "Tuple", 0⟩])
    | bt => (.unknown, tb.2 ++ [⟨.error, .typeMismatch (tyName bt) "Tuple", 0⟩])
| .dynProj _ b p =>
    let tb := inferExpr sc b
    let tp := inferExpr sc p
    match tb.1 with
    | .unknown => (.unknown, tb.2 ++ tp.2)
    | bt =>
        if projResolves bt then (.unknown, tb.2 ++ tp.2)
        else (.unknown, tb.2 ++ tp.2 ++ [⟨.error, .projMismatch (tyName bt), 0⟩])
| .fieldAcc _ b f =>
    let tb := inferExpr sc b
    match tb.1 with
    | .unknown => (.unknown, tb.2)
    | .struct _ fs =>
        match fieldTy fs f with
        | some t => (t, tb.2)
        | none => (.unknown, tb.2 ++ [⟨.error, .unknownIdent f, 0⟩])
    | bt =>
        if projResolves bt then (.unknown, tb.2)
        else (.unknown, tb.2 ++ [⟨.error, .unknownIdent f, 0⟩])
| .ite _ cnd thn els =>
    let tc := inferExpr sc cnd
    let tt := inferExpr sc thn
    let te := inferExpr sc els
    (joinTy tt.1 te.1,
      tc.2 ++ tt.2 ++ te.2 ++
        (if compatible tt.1 te.1 then []
         else [⟨.error, .typeMismatch (tyName tt.1) (tyName te.1), 0⟩]))
| .letE _ x v b =>
    let tv := inferExpr sc v
    let tb := inferExpr ((x, tv.1) :: sc) b
    (tb.1, tv.2 ++ tb.2)
| .err _ => (.unknown, [])

/-- Modelled from the spec: the required blocks of §4.5 step 1: the
routing-rule block `RouteInfo` and the transition-rule block
`TransitionInfo`. -/
def requiredBlocks : List String := ["RouteInfo", "TransitionInfo"]

/-- Modelled from the spec: the fixed required-field list per block kind
(§4.5 step 1, field names per the changelog): `RouteInfo` requires the
routed-gates and gate-realization fields; `TransitionInfo` requires the
transitions-producer, apply and cost fields. -/
def requiredFields : String → List String
| "RouteInfo" => ["routed_gates", "realize_gate"]
| "TransitionInfo" => ["get_transitions", "apply", "cost"]
| _ => []

def hasField (b : Block) (f : String) : Bool :=
  b.fields.any (fun fl => fl.name == f)

def findBlock (bs : List Block) (n : String) : Option Block :=
  bs.find? (fun b => b.name == n)

/-- Modelled from the spec: structure validation (§4.5 step 1): each
required block absent from the file yields one `MissingBlock` error; for
each required block present, each required field absent from it yields one
`MissingField` error anchored at the block header. -/
def validateStructure (bs : List Block) : List Diag :=
  requiredBlocks.flatMap fun n =>
    match findBlock bs n with
    | none => [⟨.error, .missingBlock n, 0⟩]
    | some b =>
        (requiredFields n).filterMap fun f =>
          if hasField b f then none else some ⟨.error, .missingField n f, b.pos⟩

/-- Agreement of two expression-parser results up to NodeIds: same
expression after id erasure, same diagnostics, same remaining tokens. -/
def PRes.agrees (r r' : PRes) : Prop :=
  r.e.erase = r'.e.erase ∧ r.ds = r'.ds ∧ r.rest = r'.rest

/-- The file of §8's structure-validation scenario: only a routing-rule
block (header at position 5) containing `routed_gates = CX`, with no
gate-realization field and no transition-rule block. -/
def scenarioBlocks : List Block :=
  [⟨1, "RouteInfo", 5, [⟨2, "routed_gates", .var 3 "CX"⟩]⟩]

/-- Modelled from the spec: the process-wide NodeId counter (§5): an
allocation returns the current value and increments.  A run of
concurrently executing parses is modelled by its schedule: the
interleaved sequence of the parses' allocation calls, each step atomic;
`runAlloc` tags each allocated id with the parse that requested it. -/
def runAlloc : List Nat → Nat → List (Nat × Nat)
| [], _ => []
| p :: ps, c => (p, c) :: runAlloc ps (c + 1)

end Amaro

namespace Ext

/-- The observable outcome of `activate` (src/extension.ts): the error
messages shown, whether a `chmodSync` call was attempted, whether a
`LanguageClient` was constructed and whether `start` was called on it, and
the final value of the module-level `client` variable (the server path it
was constructed from, or `none` while the variable is still undefined). -/
structure ActResult : Type where
  errors : List String
  chmodAttempted : Bool
  clientCreated : Bool
  startCalled : Bool
  client : Option String
deriving DecidableEq

/-- The platform-to-binary-name selection of `activate`
(src/extension.ts lines 17-28): `none` for an unsupported platform. -/
def binaryNameFor (platform : String) : Option String :=
  if platform = "win32" then some "amaro-lsp-win.exe"
  else if platform = "darwin" then some "amaro-lsp-mac"
  else if platform = "linux" then some "amaro-lsp-linux"
  else none

/-- `activate` (src/extension.ts), embedded over its environment: the
platform string, the extension's `asAbsolutePath` resolver and the
`fs.existsSync` predicate.  Unsupported platform: an error message and an
early return.  Missing binary: an error message and an early return
before the `chmodSync` call and before the client is constructed.
Otherwise: `chmodSync` is attempted on non-Windows platforms, the client
is constructed and `start` is called. -/
def activate (platform : String) (asAbsolutePath : String → String)
    (existsSync : String → Bool) : ActResult :=
  match binaryNameFor platform with
  | none =>
      ⟨["Amaro is not supported on this OS: " ++ platform], false, false, false, none⟩
  | some bn =>
      let serverPath := asAbsolutePath ("bin/" ++ bn)
      if existsSync serverPath then
        ⟨[], decide (platform ≠ "win32"), true, true, some serverPath⟩
      else
        ⟨["Amaro LSP binary not found! Expected at: " ++ serverPath ++
            ". Did you run cargo build?"], false, false, false, none⟩

/-- The promise returned by `client.stop()`, identified by the client it
stops. -/
inductive Promise : Type
| stopOf (client : String) : Promise
deriving DecidableEq

/-- `deactivate` (src/extension.ts lines 75-80): returns `undefined` when
the module-level `client` variable was never assigned, and otherwise the
promise produced by `client.stop()`. -/
def deactivate : Option String → Option Promise
| none => none
| some cl => some (.stopOf cl)

end Ext

namespace Amaro

theorem compatible_refl (t : Ty) : compatible t t = true := by
  induction t <;> simp [compatible, *]

theorem compatible_unknown_left (t : Ty) : compatible Ty.unknown t = true := rfl

theorem compatible_unknown_right (t : Ty) : compatible t Ty.unknown = true := by
  cases t <;> rfl

/-- C2: `compatible` is reflexive, `Unknown` is a universal sink in both
directions, and `Vec` compatibility is structural:
`compatible (Vec A) (Vec B)` holds exactly when `compatible A B` does. -/
theorem compatible_refl_unknown_sink_vec_structural :
    (∀ t : Ty, compatible t t = true) ∧
    (∀ t : Ty, compatible Ty.unknown t = true ∧ compatible t Ty.unknown = true) ∧
    (∀ a b : Ty, compatible (Ty.vec a) (Ty.vec b) = compatible a b) := by
  refine ⟨compatible_refl, ?_, ?_⟩
  · intro t
    exact ⟨compatible_unknown_left t, compatible_unknown_right t⟩
  · intro a b
    rfl

/-- C3: on an indexing expression whose base has a known (non-`Unknown`)
type with a resolved declared index type, the analyzer applies the
dedicated index-compatibility relation `indexCompatible`; that relation
accepts a `Qubit` probe where `Int` is declared and vice versa; every
mismatched pair produces one `IndexTypeMismatch` error naming the declared
and the probe type. -/
theorem index_uses_dedicated_relation (sc : Scope) (id : Nat) (b i : Expr)
    (decl elem : Ty)
    (hknown : (inferExpr sc b).1 ≠ Ty.unknown)
    (hres : indexTypeOf (inferExpr sc b).1 = some (decl, elem)) :
    ((inferExpr sc (Expr.index id b i)).2 =
      (inferExpr sc b).2 ++ (inferExpr sc i).2 ++
        checkIndexProbe decl (inferExpr sc i).1) ∧
    indexCompatible Ty.int Ty.qubit = true ∧
    indexCompatible Ty.qubit Ty.int = true ∧
    (∀ d p : Ty, indexCompatible d p = false →
      checkIndexProbe d p =
        [⟨Sev.error, DCode.indexTypeMismatch (tyName d) (tyName p), 0⟩]) := by
  refine ⟨?_, rfl, rfl, ?_⟩
  · cases hb : (inferExpr sc b).1
    case unknown => exact absurd hb hknown
    case vec t =>
        rw [hb] at hres
        simp only [indexTypeOf, Option.some.injEq, Prod.mk.injEq] at hres
        obtain ⟨h1, h2⟩ := hres
        subst h1
        simp [inferExpr, hb, indexTypeOf]
    case qubitMap =>
        rw [hb] at hres
        simp only [indexTypeOf, Option.some.injEq, Prod.mk.injEq] at hres
        obtain ⟨h1, h2⟩ := hres
        subst h1
        simp [inferExpr, hb, indexTypeOf]
    all_goals (rw [hb] at hres; simp [indexTypeOf] at hres)
  · intro d p h
    simp [checkIndexProbe, h]

theorem index_uses_dedicated_relation_witness :
    (inferExpr [("v", Ty.vec Ty.int)] (Expr.var 1 "v")).1 ≠ Ty.unknown ∧
    indexTypeOf (inferExpr [("v", Ty.vec Ty.int)] (Expr.var 1 "v")).1 =
      some (Ty.int, Ty.int) ∧
    (inferExpr [("v", Ty.vec Ty.int)]
        (Expr.index 0 (Expr.var 1 "v") (Expr.lit 2 3))).2 =
      (inferExpr [("v", Ty.vec Ty.int)] (Expr.var 1 "v")).2 ++
      (inferExpr [("v", Ty.vec Ty.int)] (Expr.lit 2 3)).2 ++
        checkIndexProbe Ty.int (inferExpr [("v", Ty.vec Ty.int)] (Expr.lit 2 3)).1 :=
  ⟨by decide, by decide,
    (index_uses_dedicated_relation [("v", Ty.vec Ty.int)] 0 (Expr.var 1 "v")
      (Expr.lit 2 3) Ty.int Ty.int (by decide) (by decide)).1⟩

/-- C5: an operation applied to an expression of inferred type `Unknown`
adds no diagnostic of its own — indexing, dynamic projection, field
access, tuple indexing and (when the other operand is numeric) binary
operations carry over exactly the subexpressions' diagnostics — and no
subexpression diagnostic is ever dropped: for any base, the children's
diagnostic lists embed into the compound expression's list. -/
theorem unknown_leniency_and_no_drop (sc : Scope) (id : Nat) (b i p : Expr)
    (f : String) (n : Nat)
    (hu : (inferExpr sc b).1 = Ty.unknown) :
    ((inferExpr sc (Expr.index id b i)).2 =
        (inferExpr sc b).2 ++ (inferExpr sc i).2) ∧
    ((inferExpr sc (Expr.dynProj id b p)).2 =
        (inferExpr sc b).2 ++ (inferExpr sc p).2) ∧
    ((inferExpr sc (Expr.fieldAcc id b f)).2 = (inferExpr sc b).2) ∧
    ((inferExpr sc (Expr.tupleIdx id b n)).2 = (inferExpr sc b).2) ∧
    (numericTy (inferExpr sc i).1 = true →
      (inferExpr sc (Expr.bin id b i)).2 =
        (inferExpr sc b).2 ++ (inferExpr sc i).2) ∧
    (∀ b' : Expr,
      (inferExpr sc b').2.Sublist (inferExpr sc (Expr.index id b' i)).2 ∧
      (inferExpr sc i).2.Sublist (inferExpr sc (Expr.index id b' i)).2 ∧
      (inferExpr sc b').2.Sublist (inferExpr sc (Expr.dynProj id b' p)).2 ∧
      (inferExpr sc p).2.Sublist (inferExpr sc (Expr.dynProj id b' p)).2 ∧
      (inferExpr sc b').2.Sublist (inferExpr sc (Expr.bin id b' i)).2 ∧
      (inferExpr sc i).2.Sublist (inferExpr sc (Expr.bin id b' i)).2) := by
  refine ⟨?_, ?_, ?_, ?_, ?_, ?_⟩
  · simp [inferExpr, hu]
  · simp [inferExpr, hu]
  · simp [inferExpr, hu]
  · simp [inferExpr, hu]
  · intro hn
    have hun : numericTy Ty.unknown = true := rfl
    simp [inferExpr, hu, hn, hun]
  · intro b'
    refine ⟨?_, ?_, ?_, ?_, ?_, ?_⟩ <;>
      cases hb : (inferExpr sc b').1 <;>
        simp [inferExpr, hb, indexTypeOf, checkIndexProbe, projResolves]

theorem unknown_leniency_and_no_drop_witness :
    (inferExpr [] (Expr.err 7)).1 = Ty.unknown ∧
    (inferExpr [] (Expr.index 0 (Expr.err 7) (Expr.lit 2 3))).2 =
      (inferExpr [] (Expr.err 7)).2 ++ (inferExpr [] (Expr.lit 2 3)).2 :=
  ⟨by decide,
    (unknown_leniency_and_no_drop [] 0 (Expr.err 7) (Expr.lit 2 3) (Expr.lit 2 3)
      "f" 0 (by decide)).1⟩

/-- C1: the whole-file parse is total and never aborts: on any non-empty
input it returns a non-empty item list or non-empty diagnostics; a token
that fits no production is recovered from — one recoverable diagnostic is
recorded, the token is skipped, and the items parsed from the remainder
are exactly those of the remainder alone; and exhausting the expression
parser's recursion-depth bound returns an error placeholder with the
dedicated recursion-limit diagnostic instead of recursing further. -/
theorem parse_total_recovering_depth_bounded
    (ts rest : List Tok) (t : Tok) (c fu : Nat)
    (hne : ts ≠ [])
    (hhd : ∀ s p, t ≠ Tok.blockHead s p)
    (hfo : ∀ s, t ≠ Tok.foreign s) :
    ((parseFile ts c).items ≠ [] ∨ (parseFile ts c).ds ≠ []) ∧
    ((parseFileGo (fu + 1) (t :: rest) c).items = (parseFileGo fu rest c).items ∧
     (parseFileGo (fu + 1) (t :: rest) c).ds =
       synDiag :: (parseFileGo fu rest c).ds) ∧
    parseExpr 0 ts c = ⟨Expr.err c, [depthDiag], ts, c + 1⟩ := by
  refine ⟨?_, ?_, by simp [parseExpr]⟩
  · rcases ts with _ | ⟨t0, ts2⟩
    · exact absurd rfl hne
    · cases t0 <;> simp [parseFile, parseFileGo]
  · cases t <;>
      first
      | exact absurd rfl (hhd _ _)
      | exact absurd rfl (hfo _)
      | simp [parseFileGo]

theorem parse_total_recovering_depth_bounded_witness :
    ([Tok.bad] ≠ ([] : List Tok)) ∧
    (((parseFile [Tok.bad] 0).items ≠ [] ∨ (parseFile [Tok.bad] 0).ds ≠ []) ∧
     ((parseFileGo 1 [Tok.bad] 0).items = (parseFileGo 0 [] 0).items ∧
      (parseFileGo 1 [Tok.bad] 0).ds = synDiag :: (parseFileGo 0 [] 0).ds) ∧
     parseExpr 0 [Tok.bad] 0 = ⟨Expr.err 0, [depthDiag], [Tok.bad], 1⟩) :=
  ⟨by decide,
    parse_total_recovering_depth_bounded [Tok.bad] [] Tok.bad 0 0 (by decide)
      (fun _ _ h => Tok.noConfusion h) (fun _ h => Tok.noConfusion h)⟩

theorem parser_counter_indep : ∀ d : Nat,
    (∀ ts c c', (parseExpr d ts c).agrees (parseExpr d ts c')) ∧
    (∀ a a' ds ts c c', a.erase = a'.erase →
      (parseSum d a ds ts c).agrees (parseSum d a' ds ts c')) ∧
    (∀ ts c c', (parsePost d ts c).agrees (parsePost d ts c')) ∧
    (∀ a a' ds ts c c', a.erase = a'.erase →
      (parsePostOps d a ds ts c).agrees (parsePostOps d a' ds ts c')) ∧
    (∀ ts c c', (parsePrimary d ts c).agrees (parsePrimary d ts c')) := by
  intro d
  induction d with
  | zero =>
      refine ⟨?_, ?_, ?_, ?_, ?_⟩
      · intro ts c c'
        simp [parseExpr, PRes.agrees, Expr.erase]
      · intro a a' ds ts c c' ha
        simp [parseSum, PRes.agrees, ha]
      · intro ts c c'
        simp [parsePost, PRes.agrees, Expr.erase]
      · intro a a' ds ts c c' ha
        simp [parsePostOps, PRes.agrees, ha]
      · intro ts c c'
        simp [parsePrimary, PRes.agrees, Expr.erase]
  | succ d ih =>
      obtain ⟨ihE, ihS, ihP, ihO, ihR⟩ := ih
      refine ⟨?_, ?_, ?_, ?_, ?_⟩
      · intro ts c c'
        obtain ⟨he, hds, hrest⟩ := ihP ts c c'
        simp only [parseExpr]
        rw [hds, hrest]
        exact ihS _ _ _ _ _ _ he
      · intro a a' ds ts c c' ha
        rcases ts with _ | ⟨t, rest⟩
        · simp [parseSum, PRes.agrees, ha]
        · cases t
          case plus =>
              obtain ⟨he, hds, hrest⟩ := ihP rest c c'
              simp only [parseSum]
              rw [hds, hrest]
              refine ihS _ _ _ _ _ _ ?_
              simp [Expr.erase, ha, he]
          all_goals simp [parseSum, PRes.agrees, ha]
      · intro ts c c'
        obtain ⟨he, hds, hrest⟩ := ihR ts c c'
        simp only [parsePost]
        rw [hds, hrest]
        exact ihO _ _ _ _ _ _ he
      · intro a a' ds ts c c' ha
        rcases ts with _ | ⟨t, rest⟩
        · simp [parsePostOps, PRes.agrees, ha]
        · cases t
          case lbrack =>
              obtain ⟨he, hds, hrest⟩ := ihE rest c c'
              simp only [parsePostOps]
              rw [hds, hrest]
              rcases hr : (parseExpr d rest c').rest with _ | ⟨t2, rest2⟩
              · simp only [hr]
                refine ihO _ _ _ _ _ _ ?_
                simp [Expr.erase, ha, he]
              · cases t2 <;> simp only [hr] <;>
                  (refine ihO _ _ _ _ _ _ ?_; simp [Expr.erase, ha, he])
          case dot =>
              rcases rest with _ | ⟨t2, rest2⟩
              · simp only [parsePostOps]
                exact ihO _ _ _ _ _ _ ha
              · cases t2
                case num n =>
                    simp only [parsePostOps]
                    refine ihO _ _ _ _ _ _ ?_
                    simp [Expr.erase, ha]
                case lparen =>
                    obtain ⟨he, hds, hrest⟩ := ihE rest2 c c'
                    simp only [parsePostOps]
                    rw [hds, hrest]
                    rcases hr : (parseExpr d rest2 c').rest with _ | ⟨t3, rest3⟩
                    · simp only [hr]
                      refine ihO _ _ _ _ _ _ ?_
                      simp [Expr.erase, ha, he]
                    · cases t3 <;> simp only [hr] <;>
                        (refine ihO _ _ _ _ _ _ ?_; simp [Expr.erase, ha, he])
                case ident f =>
                    simp only [parsePostOps]
                    refine ihO _ _ _ _ _ _ ?_
                    simp [Expr.erase, ha]
                all_goals (simp only [parsePostOps]; exact ihO _ _ _ _ _ _ ha)
          all_goals simp [parsePostOps, PRes.agrees, ha]
      · intro ts c c'
        rcases ts with _ | ⟨t, rest⟩
        · simp [parsePrimary, PRes.agrees, Expr.erase]
        · cases t
          case lparen =>
              obtain ⟨he, hds, hrest⟩ := ihE rest c c'
              simp only [parsePrimary]
              rw [hds, hrest]
              rcases hr : (parseExpr d rest c').rest with _ | ⟨t2, rest2⟩
              · simp only [hr]
                exact ⟨he, rfl, rfl⟩
              · cases t2 <;> simp only [hr] <;> exact ⟨he, rfl, rfl⟩
          case kwIf =>
              obtain ⟨he1, hds1, hrest1⟩ := ihE rest c c'
              simp only [parsePrimary]
              rw [hds1, hrest1]
              rcases h1 : (parseExpr d rest c').rest with _ | ⟨t2, r1⟩
              · simp only [h1]
                exact ⟨by simp [Expr.erase], rfl, rfl⟩
              · cases t2
                case kwThen =>
                    obtain ⟨he2, hds2, hrest2⟩ :=
                      ihE r1 (parseExpr d rest c).c (parseExpr d rest c').c
                    simp only [h1]
                    rw [hds2, hrest2]
                    rcases h2 : (parseExpr d r1 (parseExpr d rest c').c).rest with
                      _ | ⟨t3, r2⟩
                    · simp only [h2]
                      exact ⟨by simp [Expr.erase, he1, he2], rfl, rfl⟩
                    · cases t3
                      case kwElse =>
                          obtain ⟨he3, hds3, hrest3⟩ :=
                            ihE r2 (parseExpr d r1 (parseExpr d rest c).c).c
                              (parseExpr d r1 (parseExpr d rest c').c).c
                          simp only [h2]
                          rw [hds3, hrest3]
                          exact ⟨by simp [Expr.erase, he1, he2, he3], rfl, rfl⟩
                      all_goals simp only [h2]
                      all_goals exact ⟨by simp [Expr.erase, he1, he2], rfl, rfl⟩
                all_goals simp only [h1]
                all_goals exact ⟨by simp [Expr.erase], rfl, rfl⟩
          case kwLet =>
              rcases rest with _ | ⟨t2, rest2⟩
              · simp [parsePrimary, PRes.agrees, Expr.erase]
              · cases t2
                case ident x =>
                    rcases rest2 with _ | ⟨t3, rest3⟩
                    · simp [parsePrimary, PRes.agrees, Expr.erase]
                    · cases t3
                      case eq =>
                          obtain ⟨he1, hds1, hrest1⟩ := ihE rest3 c c'
                          simp only [parsePrimary]
                          rw [hds1, hrest1]
                          rcases h1 : (parseExpr d rest3 c').rest with _ | ⟨t4, r1⟩
                          · simp only [h1]
                            exact ⟨by simp [Expr.erase], rfl, rfl⟩
                          · cases t4
                            case kwIn =>
                                obtain ⟨he2, hds2, hrest2⟩ :=
                                  ihE r1 (parseExpr d rest3 c).c
                                    (parseExpr d rest3 c').c
                                simp only [h1]
                                rw [hds2, hrest2]
                                exact ⟨by simp [Expr.erase, he1, he2], rfl, rfl⟩
                            all_goals simp only [h1]
                            all_goals exact ⟨by simp [Expr.erase], rfl, rfl⟩
                      all_goals simp [parsePrimary, PRes.agrees, Expr.erase]
                all_goals simp [parsePrimary, PRes.agrees, Expr.erase]
          all_goals simp [parsePrimary, PRes.agrees, Expr.erase]

theorem parseFields_counter_indep : ∀ fu ts c c',
    ((parseFields fu ts c).1.map Field.erase =
      (parseFields fu ts c').1.map Field.erase) ∧
    ((parseFields fu ts c).2.1 = (parseFields fu ts c').2.1) ∧
    ((parseFields fu ts c).2.2.1 = (parseFields fu ts c').2.2.1) := by
  intro fu
  induction fu with
  | zero =>
      intro ts c c'
      simp [parseFields]
  | succ fu ih =>
      intro ts c c'
      rcases ts with _ | ⟨t, rest⟩
      · simp [parseFields]
      · cases t
        case ident fname =>
            rcases rest with _ | ⟨t2, rest2⟩
            · simp only [parseFields]
              have h := ih [] c c'
              exact ⟨h.1, by simp [h.2.1], h.2.2⟩
            · cases t2
              case eq =>
                  obtain ⟨he, hds, hrest⟩ :=
                    (parser_counter_indep exprDepth).1 rest2 c c'
                  simp only [parseFields]
                  rw [hds, hrest]
                  have h := ih (parseExpr exprDepth rest2 c').rest
                    ((parseExpr exprDepth rest2 c).c + 1)
                    ((parseExpr exprDepth rest2 c').c + 1)
                  refine ⟨?_, ?_, h.2.2⟩
                  · simp [Field.erase, he, h.1]
                  · simp [h.2.1]
              all_goals simp only [parseFields]
              all_goals exact ⟨(ih _ c c').1, by simp [(ih _ c c').2.1], (ih _ c c').2.2⟩
        case blockHead bname pos => simp [parseFields]
        all_goals simp only [parseFields]
        all_goals exact ⟨(ih rest c c').1, by simp [(ih rest c c').2.1], (ih rest c c').2.2⟩

theorem parseFileGo_counter_indep : ∀ fu ts c c',
    ((parseFileGo fu ts c).items.map Item.erase =
      (parseFileGo fu ts c').items.map Item.erase) ∧
    ((parseFileGo fu ts c).ds = (parseFileGo fu ts c').ds) := by
  intro fu
  induction fu with
  | zero =>
      intro ts c c'
      simp [parseFileGo]
  | succ fu ih =>
      intro ts c c'
      rcases ts with _ | ⟨t, rest⟩
      · simp [parseFileGo]
      · cases t
        case blockHead bname pos =>
            obtain ⟨hf, hds, hrest⟩ := parseFields_counter_indep fu rest c c'
            simp only [parseFileGo]
            rw [hrest]
            have h := ih (parseFields fu rest c').2.2.1
              ((parseFields fu rest c).2.2.2 + 1)
              ((parseFields fu rest c').2.2.2 + 1)
            refine ⟨?_, ?_⟩
            · simp [Item.erase, Block.erase, hf, h.1]
            · simp [hds, h.2]
        case foreign s =>
            have h := ih rest (c + 1) (c' + 1)
            simp only [parseFileGo]
            refine ⟨?_, ?_⟩
            · simp [Item.erase, h.1]
            · exact h.2
        all_goals simp only [parseFileGo]
        all_goals exact ⟨(ih rest c c').1, by simp [(ih rest c c').2]⟩

/-- C7: parsing is deterministic up to NodeIds: the same token stream
parsed from any two NodeId-counter states (two revisions of the same
text) yields structurally identical item lists after id erasure, and
identical diagnostic lists. -/
theorem parse_deterministic_up_to_ids (ts : List Tok) (c c' : Nat) :
    ((parseFile ts c).items.map Item.erase =
      (parseFile ts c').items.map Item.erase) ∧
    ((parseFile ts c).ds = (parseFile ts c').ds) :=
  parseFileGo_counter_indep (ts.length + 1) ts c c'

theorem count_mb_in_field_part (b : Block) (n n' : String) (fs : List String) :
    ((fs.filterMap fun f =>
        if hasField b f then none
        else some ⟨Sev.error, DCode.missingField n' f, b.pos⟩).count
      (⟨Sev.error, DCode.missingBlock n, 0⟩ : Diag)) = 0 := by
  rw [List.count_eq_zero]
  intro hx
  simp only [List.mem_filterMap] at hx
  obtain ⟨f, _, hsome⟩ := hx
  by_cases h : hasField b f <;> simp [h] at hsome

theorem count_mf_in_other_part (b : Block) (n n' f : String) (p : Nat)
    (fs : List String) (hne : n' ≠ n) :
    ((fs.filterMap fun g =>
        if hasField b g then none
        else some ⟨Sev.error, DCode.missingField n' g, b.pos⟩).count
      (⟨Sev.error, DCode.missingField n f, p⟩ : Diag)) = 0 := by
  rw [List.count_eq_zero]
  intro hx
  simp only [List.mem_filterMap] at hx
  obtain ⟨g, _, hsome⟩ := hx
  by_cases h : hasField b g <;> simp [h] at hsome
  exact hne hsome.1.1

theorem count_mf_notmem (b : Block) (n f : String) (fs : List String)
    (hni : f ∉ fs) :
    ((fs.filterMap fun g =>
        if hasField b g then none
        else some ⟨Sev.error, DCode.missingField n g, b.pos⟩).count
      (⟨Sev.error, DCode.missingField n f, b.pos⟩ : Diag)) = 0 := by
  rw [List.count_eq_zero]
  intro hx
  simp only [List.mem_filterMap] at hx
  obtain ⟨g, hg, hsome⟩ := hx
  by_cases h : hasField b g <;> simp [h] at hsome
  exact hni (hsome ▸ hg)

theorem count_mf_in_own_part (b : Block) (n f : String) (fs : List String)
    (hmem : f ∈ fs) (hnd : fs.Nodup) :
    ((fs.filterMap fun g =>
        if hasField b g then none
        else some ⟨Sev.error, DCode.missingField n g, b.pos⟩).count
      (⟨Sev.error, DCode.missingField n f, b.pos⟩ : Diag)) =
      if hasField b f then 0 else 1 := by
  induction fs with
  | nil => cases hmem
  | cons f0 tl ih =>
      have hnd0 : f0 ∉ tl := (List.nodup_cons.mp hnd).1
      have hndtl : tl.Nodup := (List.nodup_cons.mp hnd).2
      rcases List.mem_cons.mp hmem with rfl | hmemtl
      · by_cases hf : hasField b f
        · simp [List.filterMap_cons, hf, count_mf_notmem b n f tl hnd0]
        · simp [List.filterMap_cons, hf, List.count_cons,
            count_mf_notmem b n f tl hnd0]
      · have hne : f ≠ f0 := fun h => hnd0 (h ▸ hmemtl)
        by_cases hf0 : hasField b f0
        · simp [List.filterMap_cons, hf0, ih hmemtl hndtl]
        · simp [List.filterMap_cons, hf0, List.count_cons, ih hmemtl hndtl, hne]

/-- C4: structure validation emits exactly one `MissingBlock` error per
required block absent from the file and, for each required block present,
exactly one `MissingField` error anchored at the block header per required
field absent from it; on §8's scenario file (only a routing-rule block
with `routed_gates = CX`), the diagnostics are exactly one `MissingField`
for the routing block's gate-realization field at the block header and one
`MissingBlock` for the transition block. -/
theorem structure_validation_counts (bs : List Block) (n : String)
    (hn : n ∈ requiredBlocks) :
    ((validateStructure bs).count ⟨Sev.error, DCode.missingBlock n, 0⟩
        = if (findBlock bs n).isSome then 0 else 1) ∧
    (∀ (b : Block) (f : String), findBlock bs n = some b → f ∈ requiredFields n →
      (validateStructure bs).count ⟨Sev.error, DCode.missingField n f, b.pos⟩
        = if hasField b f then 0 else 1) ∧
    (validateStructure scenarioBlocks =
      [⟨Sev.error, DCode.missingField "RouteInfo" "realize_gate", 5⟩,
       ⟨Sev.error, DCode.missingBlock "TransitionInfo", 0⟩]) := by
  have hscen : validateStructure scenarioBlocks =
      [⟨Sev.error, DCode.missingField "RouteInfo" "realize_gate", 5⟩,
       ⟨Sev.error, DCode.missingBlock "TransitionInfo", 0⟩] := by decide
  have hRT : ("RouteInfo" : String) ≠ "TransitionInfo" := by decide
  have hTR : ("TransitionInfo" : String) ≠ "RouteInfo" := by decide
  simp only [requiredBlocks, List.mem_cons, List.not_mem_nil, or_false] at hn
  have expand : validateStructure bs =
      (match findBlock bs "RouteInfo" with
        | none => [⟨Sev.error, DCode.missingBlock "RouteInfo", 0⟩]
        | some b =>
            (requiredFields "RouteInfo").filterMap fun f =>
              if hasField b f then none
              else some ⟨Sev.error, DCode.missingField "RouteInfo" f, b.pos⟩) ++
      ((match findBlock bs "TransitionInfo" with
        | none => [⟨Sev.error, DCode.missingBlock "TransitionInfo", 0⟩]
        | some b =>
            (requiredFields "TransitionInfo").filterMap fun f =>
              if hasField b f then none
              else some ⟨Sev.error, DCode.missingField "TransitionInfo" f, b.pos⟩) ++
        []) := by
    simp [validateStructure, requiredBlocks, List.flatMap]
  rcases hn with rfl | rfl
  · refine ⟨?_, ?_, hscen⟩
    · rw [expand]
      rcases hR : findBlock bs "RouteInfo" with _ | bR <;>
        rcases hT : findBlock bs "TransitionInfo" with _ | bT <;>
          simp [List.count_append, List.count_cons, count_mb_in_field_part, hRT]
    · intro b f hfind hf
      rw [expand, hfind]
      have hnd : (requiredFields "RouteInfo").Nodup := by decide
      have hcnt := count_mf_in_own_part b "RouteInfo" f (requiredFields "RouteInfo") hf hnd
      rcases hT : findBlock bs "TransitionInfo" with _ | bT <;>
        simp [List.count_append, List.count_cons, hcnt,
          count_mf_in_other_part _ _ _ _ _ _ hTR]
  · refine ⟨?_, ?_, hscen⟩
    · rw [expand]
      rcases hR : findBlock bs "RouteInfo" with _ | bR <;>
        rcases hT : findBlock bs "TransitionInfo" with _ | bT <;>
          simp [List.count_append, List.count_cons, count_mb_in_field_part, hTR]
    · intro b f hfind hf
      rw [expand, hfind]
      have hnd : (requiredFields "TransitionInfo").Nodup := by decide
      have hcnt := count_mf_in_own_part b "TransitionInfo" f
        (requiredFields "TransitionInfo") hf hnd
      rcases hR : findBlock bs "RouteInfo" with _ | bR <;>
        simp [List.count_append, List.count_cons, hcnt,
          count_mf_in_other_part _ _ _ _ _ _ hRT]

theorem structure_validation_counts_witness :
    "RouteInfo" ∈ requiredBlocks ∧
    ((validateStructure scenarioBlocks).count
        ⟨Sev.error, DCode.missingBlock "RouteInfo", 0⟩
      = if (findBlock scenarioBlocks "RouteInfo").isSome then 0 else 1) ∧
    (validateStructure scenarioBlocks =
      [⟨Sev.error, DCode.missingField "RouteInfo" "realize_gate", 5⟩,
       ⟨Sev.error, DCode.missingBlock "TransitionInfo", 0⟩]) :=
  ⟨by decide,
    (structure_validation_counts scenarioBlocks "RouteInfo" (by decide)).1,
    (structure_validation_counts scenarioBlocks "RouteInfo" (by decide)).2.2⟩

/-- C6: in the interleaving model of the process-wide NodeId counter,
every schedule of allocation calls — any number of concurrently running
parses interleaved in any order — yields the consecutive ids starting at
the counter's value, which are strictly increasing and therefore pairwise
distinct: no two nodes, even of different parses, receive the same id. -/
theorem nodeid_unique_across_parses (sched : List Nat) (c : Nat) :
    ((runAlloc sched c).map Prod.snd = List.range' c sched.length) ∧
    List.Pairwise (· < ·) ((runAlloc sched c).map Prod.snd) ∧
    ((runAlloc sched c).map Prod.snd).Nodup := by
  have key : ∀ (s : List Nat) (k : Nat),
      (runAlloc s k).map Prod.snd = List.range' k s.length := by
    intro s
    induction s with
    | nil => intro k; simp [runAlloc]
    | cons hd tl ih =>
        intro k
        simp [runAlloc, List.range'_succ, ih]
  refine ⟨key sched c, ?_, ?_⟩
  · rw [key sched c]
    exact List.pairwise_lt_range' c sched.length
  · rw [key sched c]
    exact List.nodup_range' c sched.length

end Amaro

namespace Ext

/-- C8: on a platform other than win32, darwin and linux, `activate` shows
the unsupported-OS error message and returns without attempting a chmod,
without constructing or starting a client, and leaving the module-level
client variable undefined. -/
theorem activate_unsupported_platform (platform : String)
    (asAbsolutePath : String → String) (existsSync : String → Bool)
    (h1 : platform ≠ "win32") (h2 : platform ≠ "darwin") (h3 : platform ≠ "linux") :
    activate platform asAbsolutePath existsSync =
      ⟨["Amaro is not supported on this OS: " ++ platform],
        false, false, false, none⟩ := by
  simp [activate, binaryNameFor, h1, h2, h3]

theorem activate_unsupported_platform_witness :
    "freebsd" ≠ "win32" ∧
    activate "freebsd" (fun s => s) (fun _ => true) =
      ⟨["Amaro is not supported on this OS: " ++ "freebsd"],
        false, false, false, none⟩ :=
  ⟨by decide,
    activate_unsupported_platform "freebsd" (fun s => s) (fun _ => true)
      (by decide) (by decide) (by decide)⟩

/-- C9: when the platform is supported but the binary does not exist at
the computed path, `activate` shows the binary-not-found error message and
returns before any chmod attempt and before any client is constructed or
started, leaving the client variable undefined. -/
theorem activate_missing_binary (platform bn : String)
    (asAbsolutePath : String → String) (existsSync : String → Bool)
    (hbn : binaryNameFor platform = some bn)
    (hex : existsSync (asAbsolutePath ("bin/" ++ bn)) = false) :
    activate platform asAbsolutePath existsSync =
      ⟨["Amaro LSP binary not found! Expected at: " ++
          asAbsolutePath ("bin/" ++ bn) ++ ". Did you run cargo build?"],
        false, false, false, none⟩ := by
  simp [activate, hbn, hex]

theorem activate_missing_binary_witness :
    binaryNameFor "linux" = some "amaro-lsp-linux" ∧
    activate "linux" (fun s => s) (fun _ => false) =
      ⟨["Amaro LSP binary not found! Expected at: " ++
          (fun s => s) ("bin/" ++ "amaro-lsp-linux") ++ ". Did you run cargo build?"],
        false, false, false, none⟩ :=
  ⟨by decide,
    activate_missing_binary "linux" "amaro-lsp-linux" (fun s => s) (fun _ => false)
      (by decide) rfl⟩

/-- C10: `deactivate` returns undefined exactly when `activate` never
created a client (the client variable is still undefined), and otherwise
returns the promise produced by stopping that client. -/
theorem deactivate_exactly_when_no_client :
    (∀ (platform : String) (asAbsolutePath : String → String)
        (existsSync : String → Bool),
      (deactivate (activate platform asAbsolutePath existsSync).client = none ↔
        (activate platform asAbsolutePath existsSync).clientCreated = false)) ∧
    deactivate none = none ∧
    (∀ cl : String, deactivate (some cl) = some (Promise.stopOf cl)) := by
  refine ⟨?_, rfl, fun cl => rfl⟩
  intro platform asAbsolutePath existsSync
  rcases h : binaryNameFor platform with _ | bn
  · simp [activate, h, deactivate]
  · by_cases hex : existsSync (asAbsolutePath ("bin/" ++ bn)) = true
    · simp [activate, h, hex, deactivate]
    · simp only [Bool.not_eq_true] at hex
      simp [activate, h, hex, deactivate]

end Ext
